/-
  Verification development for the LacevApp signal-conditioning and
  feature-extraction pipeline (lacev_lib/feature_extractor.py,
  lacev_lib/signal_filter.py, main.py).

  The Python code is shallowly embedded: floating-point values are modelled
  as exact rationals, machine integers as Int/Nat, and the stateful
  segmentation loop as a structural recursion carrying the loop state.
-/
import Mathlib

/-! ### Segmentation (FeatureExtractor.extract_features, lines 29-57) -/

/-- Python `int()` applied to a rational: truncation toward zero. -/
def truncInt (q : ℚ) : ℤ := if 0 ≤ q then ⌊q⌋ else -⌊-q⌋

/-- Mirrors line 30: `points_per_segment = int(sample_rate * 60 * segment_duration_minutes)`. -/
def pointsPerSegment (sample_rate segment_duration_minutes : ℚ) : ℤ :=
  truncInt (sample_rate * 60 * segment_duration_minutes)

/-- Mirrors lines 52-56: clamp `segment_end_index` to the data length and
drop the segment when the clamped end does not exceed its start.  Returns the
end index carried to the next iteration together with the emitted segment
(`none` when the segment is discarded by the `continue`). -/
def clampEmit (total s e : ℤ) : ℤ × Option (ℤ × ℤ) :=
  if total < e then
    (total, if total ≤ s then none else some (s, total))
  else (e, some (s, e))

/-- Mirrors the loop iterations `i = 2 .. number_of_segments` of lines 43-59:
each iteration starts at the previous end minus the overlap and spans
`P` points, subject to `clampEmit`. -/
def segLoopAux (total P ov : ℤ) : ℕ → ℤ → List (ℤ × ℤ)
  | 0, _ => []
  | Nat.succ k, ePrev =>
    let s := ePrev - ov
    let r := clampEmit total s (s + P)
    match r.2 with
    | some seg => seg :: segLoopAux total P ov k r.1
    | none => segLoopAux total P ov k r.1

/-- Mirrors lines 36-59 of `FeatureExtractor.extract_features`: the list of
`(segment_start_index, segment_end_index)` pairs actually sliced from the
data array.  `number_of_segments = total // pps`, `overlap = pps // 3`,
segment 1 is `[0, pps)`, and each later segment starts at the previous end
minus the overlap. -/
def extractSegments (total pps : ℕ) : List (ℤ × ℤ) :=
  if pps = 0 then []
  else if total < pps then []
  else
    match clampEmit (total : ℤ) 0 (pps : ℤ) with
    | (e1, some seg) =>
      seg :: segLoopAux (total : ℤ) (pps : ℤ) ((pps / 3 : ℕ) : ℤ) (total / pps - 1) e1
    | (e1, none) => segLoopAux (total : ℤ) (pps : ℤ) ((pps / 3 : ℕ) : ℤ) (total / pps - 1) e1

/-! ### Minute renormalization (FeatureExtractor._adjust_minute_representation, lines 211-220)

The Python source contains only the branches below; the placeholder comment
in the source (`all other elif conditions from original`) marks the
remaining hour branches as elided. -/

def adjustMinute (minute_value : ℤ) : ℤ :=
  if 60 < minute_value ∧ minute_value < 100 then 100
  else if 160 < minute_value ∧ minute_value < 200 then 200
  else if 2160 < minute_value ∧ minute_value < 2200 then 2200
  else if 2359 < minute_value then 0
  else minute_value

/-! ### Segment validity gate (extract_features, lines 61-66 and 152-154) -/

/-- `np.mean` of a segment, over exact rationals. -/
def pyMean (xs : List ℚ) : ℚ := xs.sum / (xs.length : ℚ)

/-- The epsilon of line 66: `1e-9`. -/
def epsilonMean : ℚ := 1 / 1000000000

/-- Mirrors line 66: the segment is processed when its length exceeds 100
and the magnitude of its mean exceeds `epsilonMean`. -/
def segmentValid (seg : List ℚ) : Bool :=
  decide (100 < seg.length) && decide (epsilonMean < |pyMean seg|)

/-- One iteration of the per-segment loop restricted to the accounting state
`(number of appended feature vectors, current_minute_offset)`: lines 61-66
skip empty and invalid segments; lines 152-154 append a vector and advance
`current_minute_offset` by `segment_duration_minutes` (renormalized) only
for a valid segment. -/
def stepSegment (dur : ℤ) (st : ℕ × ℤ) (seg : List ℚ) : ℕ × ℤ :=
  if seg.length = 0 then st
  else if segmentValid seg then (st.1 + 1, adjustMinute (st.2 + dur))
  else st

/-! ### Adaptive Lyapunov separation (extract_features, line 73) -/

/-- Mirrors line 73: `min_tsep=1305 if len(segment_array) > 1305*2 else
max(1, (len(segment_array)//2)-1)`. -/
def minTsep (segment_length : ℕ) : ℤ :=
  if 1305 * 2 < segment_length then 1305
  else max 1 ((segment_length : ℤ) / 2 - 1)

/-! ### Band powers (extract_features, lines 81-106) -/

/-- Structural helper for the odd-sample composite Simpson sum
`sum of (y0 + 4*y1 + y2)` over consecutive point pairs. -/
def simpsonPairsAux : ℚ → List ℚ → ℚ
  | _, [] => 0
  | _, [_] => 0
  | y0, y1 :: y2 :: rest => (y0 + 4 * y1 + y2) + simpsonPairsAux y2 rest

/-- Composite Simpson quadrature with uniform step `dx`, as
`scipy.integrate.simpson`: zero area for fewer than two samples, the
trapezoid for exactly two, the standard composite rule for an odd sample
count, and for an even count the rule on the first points plus a corrected
contribution of the final interval. -/
def simpsonQ (ys : List ℚ) (dx : ℚ) : ℚ :=
  match ys with
  | [] => 0
  | [_] => 0
  | [y0, y1] => dx * (y0 + y1) / 2
  | y0 :: ytail =>
    if ys.length % 2 = 1 then dx / 3 * simpsonPairsAux y0 ytail
    else
      match ys.reverse with
      | a :: b :: c :: _ =>
        dx / 3 * simpsonPairsAux y0 (ytail.dropLast) + dx * (5 * a + 8 * b - c) / 12
      | _ => 0

/-- Mirrors line 84: `frequency_resolution = frequencies[1] - frequencies[0]`
when at least two frequency bins exist, else the default `1.0`. -/
def frequencyResolution (freqs : List ℚ) : ℚ :=
  if freqs.length < 2 then 1 else freqs.getD 1 0 - freqs.getD 0 0

/-- Mirrors the band-power pattern of lines 88-106: select the PSD bins whose
frequency `f` satisfies `low <= f and f <= high` (`np.logical_and(frequencies
>= low, frequencies <= high)`) and integrate them by `simpson(..., dx)`;
an empty selection yields `0.0`. -/
def bandPower (low high : ℚ) (freqs psd : List ℚ) (dx : ℚ) : ℚ :=
  if ((freqs.zip psd).filter (fun p => decide (low ≤ p.1) && decide (p.1 ≤ high))).isEmpty
  then 0
  else
    simpsonQ
      (((freqs.zip psd).filter (fun p => decide (low ≤ p.1) && decide (p.1 ≤ high))).map Prod.snd)
      dx

/-- Band power as the spec's sentence reads it, with the *half-open*
sub-range `low <= f < high`; kept only to be compared with `bandPower`,
which is translated from the source. -/
def bandPowerHalfOpen (low high : ℚ) (freqs psd : List ℚ) (dx : ℚ) : ℚ :=
  if ((freqs.zip psd).filter (fun p => decide (low ≤ p.1) && decide (p.1 < high))).isEmpty
  then 0
  else
    simpsonQ
      (((freqs.zip psd).filter (fun p => decide (low ≤ p.1) && decide (p.1 < high))).map Prod.snd)
      dx

/-! ### Feature-vector assembly (extract_features lines 128-150,
save_features_to_csv lines 222-245) -/

/-- A Python value as it appears in a feature row. -/
inductive PyVal
  | int (n : ℤ)
  | str (s : String)
  | rat (q : ℚ)
  | bool (b : Bool)
  | none
deriving DecidableEq

/-- Python truthiness, as tested by `if stage_info:` on line 129. -/
def PyVal.truthy : PyVal → Bool
  | .int n => decide (n ≠ 0)
  | .str s => decide (s ≠ "")
  | .rat q => decide (q ≠ 0)
  | .bool b => b
  | .none => false

/-- The 21 per-segment numeric quantities computed on lines 69-108, named
after the variables holding them. -/
structure SegmentFeatures where
  approximate_entropy : ℚ
  detrended_fluctuation_analysis : ℚ
  positive_lyapunov_exponents_count : ℚ
  lyapunov_exponent_r : ℚ
  absolute_band_power_low : ℚ
  absolute_band_power_delta : ℚ
  absolute_band_power_theta : ℚ
  absolute_band_power_alpha : ℚ
  absolute_band_power_beta : ℚ
  fft_mean : ℚ
  fft_min : ℚ
  fft_max : ℚ
  fft_std : ℚ
  psd_mean : ℚ
  psd_min : ℚ
  psd_max : ℚ
  psd_std : ℚ
  electrome_mean : ℚ
  electrome_min : ℚ
  electrome_max : ℚ
  electrome_std : ℚ
deriving DecidableEq

/-- Mirrors lines 138-150: the 21 numeric entries appended to the feature
vector, in source order and with the source's absolute-value wrapping. -/
def numericFields (fs : SegmentFeatures) : List PyVal :=
  [.rat |fs.approximate_entropy|, .rat |fs.detrended_fluctuation_analysis|,
   .rat fs.positive_lyapunov_exponents_count, .rat fs.lyapunov_exponent_r,
   .rat |fs.absolute_band_power_low|, .rat |fs.absolute_band_power_delta|,
   .rat |fs.absolute_band_power_theta|, .rat |fs.absolute_band_power_alpha|,
   .rat |fs.absolute_band_power_beta|,
   .rat fs.fft_mean, .rat |fs.fft_min|, .rat |fs.fft_max|, .rat |fs.fft_std|,
   .rat |fs.psd_mean|, .rat |fs.psd_min|, .rat |fs.psd_max|, .rat |fs.psd_std|,
   .rat |fs.electrome_mean|, .rat |fs.electrome_min|, .rat |fs.electrome_max|,
   .rat |fs.electrome_std|]

/-- Mirrors lines 128-150: header fields, the stage tag only when
`stage_info` is truthy, then the 21 numeric fields. -/
def buildFeatureVector (class_id class_name formatted_minute formatted_date stage_info : PyVal)
    (fs : SegmentFeatures) : List PyVal :=
  ([class_id, class_name, formatted_minute, formatted_date] ++
    (if stage_info.truthy then [stage_info] else [])) ++ numericFields fs

/-- The 21 feature column names of lines 236-242. -/
def featureMetricNames : List String :=
  ["apen", "dfa", "chaos_cont_dim", "lyap_r",
   "abp_low", "abp_delta", "abp_theta", "abp_alpha", "abp_beta",
   "fft_mean", "fft_min", "fft_max", "fft_variance",
   "psd_mean", "psd_min", "psd_max", "psd_variance",
   "electrome_mean", "electrome_min", "electrome_max", "electrome_variance"]

/-- Mirrors lines 232-243: the column schema of `save_features_to_csv`. -/
def columnNames (stage_parameter_flag : Bool) : List String :=
  (["class_id", "class_name", "formatted_minute", "formatted_date"] ++
    (if stage_parameter_flag then ["stage_info"] else [])) ++ featureMetricNames

/-- A pandas DataFrame restricted to what the claims need: an ordered column
schema and the list of rows. -/
structure Table where
  cols : List String
  rows : List (List PyVal)
deriving DecidableEq

def columnsMismatchMsg : String := "ValueError: columns passed do not match data"

/-- `pd.DataFrame(list_of_lists, columns=cols)` raises when some row's width
differs from the number of column names (line 245 sits outside the
`try` block, so the exception propagates). -/
def pdDataFrame (rows : List (List PyVal)) (cols : List String) : Except String Table :=
  if rows.all (fun r => r.length = cols.length) then .ok ⟨cols, rows⟩
  else .error columnsMismatchMsg

/-- Mirrors the schema-facing part of `save_features_to_csv`
(lines 222-245): build the column names from the stage flag and construct
the DataFrame that is then written. -/
def saveFeaturesToCsv (rows : List (List PyVal)) (stage_parameter_flag : Bool) :
    Except String Table :=
  pdDataFrame rows (columnNames stage_parameter_flag)

/-! ### Filter pipeline order (SignalFilter.apply_filters_and_save,
lines 25-97) -/

inductive FilterStage
  | notch
  | bandpass
  | save
deriving DecidableEq

structure FilterRun where
  stages : List FilterStage
  error : Option String
deriving DecidableEq

def cutoffErrorMsg : String := "ValueError: low cutoff must be lower than high cutoff"

/-- Mirrors `apply_filters_and_save` (lines 47-52) together with
`_apply_butterworth_bandpass_filter` (lines 82-97): the notch filter is
applied first (line 49); the bandpass helper then normalizes the configured
cutoffs by the Nyquist frequency and raises when the normalized low cutoff
is not strictly below the normalized high cutoff (lines 88-89), so the
bandpass stage and the save never run in that case; otherwise both follow.
The `stages` field records which filtering stages were applied. -/
def applyFiltersAndSave (config_lowcut_freq config_highcut_freq sample_rate : ℚ) : FilterRun :=
  let nyquist_frequency := sample_rate / 2
  let normalized_low_cutoff := config_lowcut_freq / nyquist_frequency
  let normalized_high_cutoff := config_highcut_freq / nyquist_frequency
  if normalized_high_cutoff ≤ normalized_low_cutoff then
    { stages := [.notch], error := some cutoffErrorMsg }
  else
    { stages := [.notch, .bandpass, .save], error := none }

/-! ### Per-class aggregation (main.LacevAppGUI.aggregate_and_save_class_features,
lines 425-472) -/

def warnLevel : String := "warning"

/-- Outcome of the aggregation call: either a saved per-class table, or a
skip reported through `log_message` at the recorded severity level. -/
inductive AggOutcome
  | saved (t : Table)
  | skipped (log_level : String)
deriving DecidableEq

/-- Index of a column name in a schema, as pandas column lookup. -/
def findIdx (target : String) : List String → Option ℕ
  | [] => none
  | c :: cs => if c = target then some 0 else (findIdx target cs).map (· + 1)

/-- The value a reindexed row takes in column `target`: the row entry at the
source schema's position of `target`, or missing. -/
def selectVal (src_cols : List String) (r : List PyVal) (target : String) : PyVal :=
  match findIdx target src_cols with
  | some i => r.getD i .none
  | none => .none

/-- `pd.DataFrame(df, columns=cols)`: select/reorder the existing columns by
name into the order `cols`. -/
def reindexColumns (t : Table) (cols : List String) : Table :=
  ⟨cols, t.rows.map (fun r => cols.map (selectVal t.cols r))⟩

/-- `pd.concat(dfs, axis=0, ignore_index=True)` for tables sharing one
schema: the first table's columns, and all rows in input order. -/
def concatTables : List Table → Table
  | [] => ⟨[], []⟩
  | t :: ts => ⟨t.cols, ((t :: ts).map Table.rows).flatten⟩

/-- Mirrors lines 437-469 of `aggregate_and_save_class_features`: an empty
glob result logs a warning and returns (lines 439-441); unreadable files are
dropped, and if no table was read a warning is logged and the call returns
(lines 453-455); otherwise the read tables are concatenated (line 457) and
passed to `save_features_to_csv` with the default stage flag, whose
`pd.DataFrame(df, columns=...)` reindexes to the 25 standard columns
(lines 461-465). -/
def aggregateAndSaveClassFeatures (files : List (Option Table)) : AggOutcome :=
  if files = [] then .skipped warnLevel
  else if files.filterMap id = [] then .skipped warnLevel
  else .saved (reindexColumns (concatTables (files.filterMap id)) (columnNames false))

/-- The 25-entry row used by concrete witnesses. -/
def sampleRow : List PyVal := List.replicate 25 (PyVal.int 0)

/-- A one-row per-file feature table with the standard schema. -/
def sampleTable : Table := ⟨columnNames false, [sampleRow]⟩

/-- An all-zero instance of the per-segment numeric quantities. -/
def zeroSegmentFeatures : SegmentFeatures :=
  ⟨0, 0, 0, 0, 0, 0, 0, 0, 0, 0, 0, 0, 0, 0, 0, 0, 0, 0, 0, 0, 0⟩

/-! ### Helper lemmas -/

lemma segLoopAux_closed (total P ov : ℤ) (_hov : 0 ≤ ov) (hPov : ov < P) :
    ∀ (k : ℕ) (ePrev : ℤ), ePrev + (k : ℤ) * (P - ov) ≤ total →
    segLoopAux total P ov k ePrev =
      (List.range k).map
        (fun j : ℕ => ((ePrev + (j : ℤ) * (P - ov) - ov, ePrev + ((j : ℤ) + 1) * (P - ov)) : ℤ × ℤ)) := by
  intro k
  induction k with
  | zero => intro ePrev _; simp [segLoopAux]
  | succ k ih =>
    intro ePrev h
    have hd : 0 < P - ov := by linarith
    have hkd : 0 ≤ (k : ℤ) * (P - ov) := mul_nonneg (Int.natCast_nonneg k) (le_of_lt hd)
    have h' : ePrev + ((k : ℤ) + 1) * (P - ov) ≤ total := by push_cast at h; linarith
    have he : ePrev + (P - ov) ≤ total := by linarith [h', hkd]
    have hcl : clampEmit total (ePrev - ov) (ePrev - ov + P) =
        (ePrev - ov + P, some (ePrev - ov, ePrev - ov + P)) := by
      unfold clampEmit
      rw [if_neg (by linarith)]
    have hnext : (ePrev - ov + P) + (k : ℤ) * (P - ov) ≤ total := by
      ring_nf
      ring_nf at h'
      linarith
    simp only [segLoopAux, hcl]
    rw [ih (ePrev - ov + P) hnext]
    rw [List.range_succ_eq_map, List.map_cons, List.map_map]
    congr 1
    · simp [Prod.ext_iff]
      try omega
    · apply List.map_congr_left
      intro j _
      simp only [Function.comp_apply, Prod.ext_iff]
      constructor <;> (push_cast; ring)

lemma extractSegments_closed (total pps : ℕ) (h : 1 ≤ pps) :
    extractSegments total pps =
      (List.range (total / pps)).map
        (fun i : ℕ => (((i : ℤ) * ((pps : ℤ) - ((pps / 3 : ℕ) : ℤ)),
                        (i : ℤ) * ((pps : ℤ) - ((pps / 3 : ℕ) : ℤ)) + (pps : ℤ)) : ℤ × ℤ)) := by
  by_cases htot : total < pps
  · have h0 : total / pps = 0 := Nat.div_eq_of_lt htot
    rw [h0]
    unfold extractSegments
    rw [if_neg (by omega), if_pos htot]
    simp
  · push_neg at htot
    have hppos : 0 < pps := by omega
    have hovlt : ((pps / 3 : ℕ) : ℤ) < (pps : ℤ) := by
      exact_mod_cast Nat.div_lt_self hppos (by norm_num)
    have hovnn : (0 : ℤ) ≤ ((pps / 3 : ℕ) : ℤ) := Int.natCast_nonneg _
    have hn1 : 1 ≤ total / pps := (Nat.one_le_div_iff hppos).mpr htot
    have hnk : total / pps = (total / pps - 1) + 1 := by omega
    have hcl : clampEmit (total : ℤ) 0 (pps : ℤ) = ((pps : ℤ), some (0, (pps : ℤ))) := by
      unfold clampEmit
      rw [if_neg (by exact_mod_cast not_lt.mpr htot)]
    unfold extractSegments
    rw [if_neg (by omega), if_neg (by omega), hcl]
    have hmul : ((total / pps : ℕ) : ℤ) * (pps : ℤ) ≤ (total : ℤ) := by
      exact_mod_cast Nat.div_mul_le_self total pps
    have hb : (pps : ℤ) + ((total / pps - 1 : ℕ) : ℤ) * ((pps : ℤ) - ((pps / 3 : ℕ) : ℤ)) ≤ (total : ℤ) := by
      have hc : ((total / pps - 1 : ℕ) : ℤ) = ((total / pps : ℕ) : ℤ) - 1 := by
        omega
      rw [hc]
      nlinarith [mul_nonneg (sub_nonneg.mpr (by exact_mod_cast hn1 :
        (1 : ℤ) ≤ ((total / pps : ℕ) : ℤ))) hovnn]
    show ((0 : ℤ), (pps : ℤ)) ::
        segLoopAux (total : ℤ) (pps : ℤ) ((pps / 3 : ℕ) : ℤ) (total / pps - 1) (pps : ℤ) = _
    rw [segLoopAux_closed (total : ℤ) (pps : ℤ) ((pps / 3 : ℕ) : ℤ) hovnn hovlt _ _ hb]
    conv_rhs => rw [hnk]
    rw [List.range_succ_eq_map, List.map_cons, List.map_map]
    congr 1
    · simp
    · apply List.map_congr_left
      intro j _
      simp only [Function.comp_apply, Prod.ext_iff]
      constructor <;> (push_cast; ring)

lemma stepSegment_of_valid (dur : ℤ) (c : ℕ) (m : ℤ) (seg : List ℚ)
    (h : segmentValid seg = true) :
    stepSegment dur (c, m) seg = (c + 1, adjustMinute (m + dur)) := by
  have hlen : seg.length ≠ 0 := by
    unfold segmentValid at h
    simp only [Bool.and_eq_true, decide_eq_true_eq] at h
    omega
  unfold stepSegment
  rw [if_neg hlen, if_pos h]

lemma stepSegment_of_invalid (dur : ℤ) (c : ℕ) (m : ℤ) (seg : List ℚ)
    (h : segmentValid seg = false) :
    stepSegment dur (c, m) seg = (c, m) := by
  unfold stepSegment
  by_cases h0 : seg.length = 0
  · rw [if_pos h0]
  · rw [if_neg h0, if_neg (by simp [h])]

lemma segmentValid_replicate_zero (k : ℕ) :
    segmentValid (List.replicate k (0 : ℚ)) = false := by
  have hm : pyMean (List.replicate k (0 : ℚ)) = 0 := by
    unfold pyMean
    simp [List.sum_replicate]
  have h2 : decide (epsilonMean < |pyMean (List.replicate k (0 : ℚ))|) = false := by
    rw [hm, abs_zero, decide_eq_false_iff_not]
    norm_num [epsilonMean]
  unfold segmentValid
  rw [h2, Bool.and_false]

lemma foldl_stepSegment_count (dur : ℤ) :
    ∀ (segs : List (List ℚ)) (c : ℕ) (m : ℤ),
    (List.foldl (stepSegment dur) (c, m) segs).1 = c + segs.countP segmentValid := by
  intro segs
  induction segs with
  | nil => intro c m; simp
  | cons s t ih =>
    intro c m
    rw [List.foldl_cons, List.countP_cons]
    cases hv : segmentValid s with
    | true =>
      rw [stepSegment_of_valid dur c m s hv, ih]
      simp [hv]
      try omega
    | false =>
      rw [stepSegment_of_invalid dur c m s hv, ih]
      simp [hv]

lemma zip_map_fst_sublist : ∀ (l₁ l₂ : List ℚ), ((l₁.zip l₂).map Prod.fst).Sublist l₁ := by
  intro l₁
  induction l₁ with
  | nil => intro l₂; simp
  | cons a t ih =>
    intro l₂
    cases l₂ with
    | nil => simp
    | cons b t₂ => simpa using (ih t₂).cons₂ a

lemma mem_band_filter_eq_30 (freqs psd : List ℚ)
    (hno : ∀ f ∈ freqs, ¬(12 ≤ f ∧ f < 30)) :
    ∀ p ∈ (freqs.zip psd).filter
      (fun p => decide ((12 : ℚ) ≤ p.1) && decide (p.1 ≤ (30 : ℚ))), p.1 = 30 := by
  intro p hp
  obtain ⟨a, b⟩ := p
  have hmem := List.mem_filter.mp hp
  have hf : a ∈ freqs := (List.of_mem_zip hmem.1).1
  have hcond := hmem.2
  simp only [Bool.and_eq_true, decide_eq_true_eq] at hcond
  have hnab := hno a hf
  push_neg at hnab
  exact le_antisymm hcond.2 (hnab hcond.1)

lemma band_filter_fst_nodup (freqs psd : List ℚ) (hnd : freqs.Nodup)
    (pred : ℚ × ℚ → Bool) :
    ((((freqs.zip psd).filter pred)).map Prod.fst).Nodup := by
  have h1 : ((freqs.zip psd).filter pred).Sublist (freqs.zip psd) := List.filter_sublist _
  have h2 : ((((freqs.zip psd).filter pred)).map Prod.fst).Sublist
      ((freqs.zip psd).map Prod.fst) := h1.map Prod.fst
  exact (h2.trans (zip_map_fst_sublist freqs psd)).nodup hnd

lemma findIdx_self (c : String) (cs : List String) : findIdx c (c :: cs) = some 0 := by
  unfold findIdx
  rw [if_pos rfl]

lemma selectVal_head (c : String) (cs : List String) (a : PyVal) (r : List PyVal) :
    selectVal (c :: cs) (a :: r) c = a := by
  unfold selectVal
  rw [findIdx_self]
  rfl

lemma selectVal_shift (c : String) (cs : List String) (a : PyVal) (r : List PyVal)
    (x : String) (hx : c ≠ x) :
    selectVal (c :: cs) (a :: r) x = selectVal cs r x := by
  simp only [selectVal, findIdx]
  rw [if_neg hx]
  cases h : findIdx x cs with
  | none => simp [h]
  | some i => simp [h]

lemma map_selectVal_self : ∀ (cols : List String) (r : List PyVal),
    cols.Nodup → r.length = cols.length → cols.map (selectVal cols r) = r := by
  intro cols
  induction cols with
  | nil =>
    intro r _ hr
    simp only [List.map_nil]
    exact (List.length_eq_zero.mp (by simpa using hr)).symm
  | cons c cs ih =>
    intro r hnd hr
    cases r with
    | nil => simp at hr
    | cons a r₂ =>
      rw [List.map_cons, selectVal_head]
      have hnd' := List.nodup_cons.mp hnd
      have htail : cs.map (selectVal (c :: cs) (a :: r₂)) = cs.map (selectVal cs r₂) :=
        List.map_congr_left
          (fun x hx => selectVal_shift c cs a r₂ x (fun hcx => hnd'.1 (hcx ▸ hx)))
      rw [htail, ih r₂ hnd'.2 (by simpa using hr)]

lemma columnNamesFalseNodup : (columnNames false).Nodup := by decide

lemma columnNamesFalseLength : (columnNames false).length = 25 := by decide

lemma reindexColumns_self (t : Table) (hnd : t.cols.Nodup)
    (hr : ∀ r ∈ t.rows, r.length = t.cols.length) :
    reindexColumns t t.cols = t := by
  obtain ⟨cols, rows⟩ := t
  simp only [reindexColumns, Table.mk.injEq, true_and]
  have h2 : rows.map (fun r => cols.map (selectVal cols r)) = rows.map id :=
    List.map_congr_left (fun r hrr => map_selectVal_self cols r hnd (hr r hrr))
  rw [h2, List.map_id]

/-! ### Claim theorems -/

/-- C1: with `pointsPerSegment = floor(sampleRate * 60 * segmentDurationMinutes) >= 1`,
`extract_features` produces `floor(totalSamples / pointsPerSegment)` segments with
overlap `floor(pointsPerSegment / 3)`: segment 1 is `[0, pps)` and each later
segment starts at the previous end minus the overlap and spans `pps` points
(the clamp to `totalSamples` never binds, so no segment is discarded); in
particular `sampleRate = 60`, `segmentDurationMinutes = 3`,
`totalSamples = 25000` gives exactly the segments `[0, 10800)` and
`[7200, 18000)`. -/
theorem c1_windowed_segmentation :
    (∀ (sample_rate segment_duration_minutes : ℚ) (total pps : ℕ),
      pointsPerSegment sample_rate segment_duration_minutes = (pps : ℤ) → 1 ≤ pps →
      extractSegments total pps =
        (List.range (total / pps)).map
          (fun i : ℕ => (((i : ℤ) * ((pps : ℤ) - ((pps / 3 : ℕ) : ℤ)),
                          (i : ℤ) * ((pps : ℤ) - ((pps / 3 : ℕ) : ℤ)) + (pps : ℤ)) : ℤ × ℤ)))
    ∧ pointsPerSegment 60 3 = 10800
    ∧ extractSegments 25000 10800 = [(0, 10800), (7200, 18000)] := by
  refine ⟨fun _ _ total pps _ h => extractSegments_closed total pps h, ?_, ?_⟩
  · norm_num [pointsPerSegment, truncInt]
  · decide

theorem c1_witness :
    pointsPerSegment 60 3 = ((10800 : ℕ) : ℤ) ∧ 1 ≤ (10800 : ℕ) ∧
    extractSegments 25000 10800 =
      (List.range (25000 / 10800)).map
        (fun i : ℕ => (((i : ℤ) * ((10800 : ℤ) - ((10800 / 3 : ℕ) : ℤ)),
                        (i : ℤ) * ((10800 : ℤ) - ((10800 / 3 : ℕ) : ℤ)) + (10800 : ℤ)) : ℤ × ℤ)) := by
  have hp : pointsPerSegment 60 3 = ((10800 : ℕ) : ℤ) := by norm_num [pointsPerSegment, truncInt]
  exact ⟨hp, by norm_num, c1_windowed_segmentation.1 60 3 25000 10800 hp (by norm_num)⟩

/-- C2: a feature vector is appended exactly when the segment has more than
100 samples and mean magnitude above `1e-9`; a constant-zero segment is
rejected regardless of length; an invalid segment leaves the running
minute counter untouched, and an accepted segment advances it by
`segment_duration_minutes` (then renormalized); over a whole file the
number of appended vectors counts exactly the valid segments. -/
theorem c2_segment_validity_gate :
    ∀ (dur : ℤ) (c : ℕ) (m : ℤ) (seg : List ℚ) (segs : List (List ℚ)),
    (segmentValid seg = true ↔ 100 < seg.length ∧ epsilonMean < |pyMean seg|)
    ∧ (segmentValid seg = true → stepSegment dur (c, m) seg = (c + 1, adjustMinute (m + dur)))
    ∧ (segmentValid seg = false → stepSegment dur (c, m) seg = (c, m))
    ∧ (∀ k : ℕ, segmentValid (List.replicate k (0 : ℚ)) = false)
    ∧ (List.foldl (stepSegment dur) (c, m) segs).1 = c + segs.countP segmentValid := by
  intro dur c m seg segs
  exact ⟨by simp [segmentValid, decide_eq_true_eq],
         stepSegment_of_valid dur c m seg,
         stepSegment_of_invalid dur c m seg,
         segmentValid_replicate_zero,
         foldl_stepSegment_count dur segs c m⟩

theorem c2_witness :
    segmentValid (List.replicate 101 (1 : ℚ)) = true ∧
    stepSegment 3 (0, 0) (List.replicate 101 (1 : ℚ)) = (0 + 1, adjustMinute (0 + 3)) := by
  have hv : segmentValid (List.replicate 101 (1 : ℚ)) = true := by
    simp [segmentValid, pyMean, epsilonMean, List.sum_replicate]
    norm_num
  exact ⟨hv, (c2_segment_validity_gate 3 0 0 (List.replicate 101 (1 : ℚ)) []).2.1 hv⟩

/-- C3: the code behaviour of `_adjust_minute_representation` at the inputs
that decide the claim: the three documented examples hold, but `265`
(strictly between `2*100+60` and `3*100`) is returned unchanged instead of
being snapped to `300`, because the source only contains the snapping
branches for hours 0, 1 and 21. -/
theorem c3_minute_renormalization_code_behavior :
    adjustMinute 65 = 100 ∧ adjustMinute 2170 = 2200 ∧ adjustMinute 2400 = 0 ∧
    adjustMinute 265 = 265 := by decide

/-- C4 counterexample: for the invalid configuration `lowcut = 32`,
`highcut = 5`, `sample rate = 250`, the configuration error is raised, yet
the notch stage has already been applied — contradicting the claim that
neither filtering stage runs. -/
theorem c4_counterexample :
    (applyFiltersAndSave 32 5 250).error.isSome = true ∧
    FilterStage.notch ∈ (applyFiltersAndSave 32 5 250).stages := by
  norm_num [applyFiltersAndSave]

/-- C4 (amended): the configuration error is raised exactly when the
normalized low cutoff is not strictly below the normalized high cutoff; when
raised, it occurs after the notch stage has been applied but before the
bandpass stage and before any output artifact (the run's stage trace is
exactly `[notch]`); otherwise no error is raised and all stages run. -/
theorem c4_fail_fast_amended :
    ∀ (config_lowcut_freq config_highcut_freq sample_rate : ℚ),
    ((applyFiltersAndSave config_lowcut_freq config_highcut_freq sample_rate).error.isSome = true ↔
      config_highcut_freq / (sample_rate / 2) ≤ config_lowcut_freq / (sample_rate / 2))
    ∧ ((applyFiltersAndSave config_lowcut_freq config_highcut_freq sample_rate).error.isSome = true →
        (applyFiltersAndSave config_lowcut_freq config_highcut_freq sample_rate).stages =
          [FilterStage.notch])
    ∧ ((applyFiltersAndSave config_lowcut_freq config_highcut_freq sample_rate).error = none →
        (applyFiltersAndSave config_lowcut_freq config_highcut_freq sample_rate).stages =
          [FilterStage.notch, FilterStage.bandpass, FilterStage.save]) := by
  intro low high rate
  by_cases h : high / (rate / 2) ≤ low / (rate / 2) <;> simp [applyFiltersAndSave, h]

theorem c4_witness :
    (applyFiltersAndSave 32 5 250).error.isSome = true ∧
    (applyFiltersAndSave 32 5 250).stages = [FilterStage.notch] := by
  have h1 : (applyFiltersAndSave 32 5 250).error.isSome = true := by
    norm_num [applyFiltersAndSave]
  exact ⟨h1, (c4_fail_fast_amended 32 5 250).2.1 h1⟩

/-- C5 counterexample: over the frequency bins `[7, 8]` with PSD `[0, 1]`
and frequency resolution `1`, the theta band power computed by the code
(closed range `4 <= f <= 8`) differs from the claim's half-open
restriction `4 <= f < 8`. -/
theorem c5_counterexample :
    frequencyResolution [7, 8] = 1 ∧
    bandPower 4 8 [7, 8] [0, 1] 1 ≠ bandPowerHalfOpen 4 8 [7, 8] [0, 1] 1 := by
  have h1 : bandPower 4 8 [7, 8] [0, 1] 1 = 1 / 2 := by
    norm_num [bandPower, simpsonQ, List.zip, List.zipWith, List.filter]
  have h2 : bandPowerHalfOpen 4 8 [7, 8] [0, 1] 1 = 0 := by
    norm_num [bandPowerHalfOpen, simpsonQ, List.zip, List.zipWith, List.filter]
  refine ⟨by norm_num [frequencyResolution], ?_⟩
  rw [h1, h2]
  norm_num

/-- C5 (amended): each band power is the composite-Simpson integral, with the
PSD's frequency resolution as step, of the PSD restricted to the bins in the
*closed* sub-range `[low, high]` (a bin at a shared endpoint counts in both
adjacent bands); a band with no bins integrates to exactly 0; and a PSD
whose distinct frequency bins avoid `[12, 30)` still yields beta band power
exactly 0, since at most the single bin at exactly 30 Hz is selected and a
one-point integral is 0. -/
theorem c5_band_power_closed_ranges :
    ∀ (freqs psd : List ℚ) (dx low high : ℚ),
    (bandPower low high freqs psd dx =
      (if ((freqs.zip psd).filter (fun p => decide (low ≤ p.1) && decide (p.1 ≤ high))).isEmpty
       then 0
       else simpsonQ
         (((freqs.zip psd).filter (fun p => decide (low ≤ p.1) && decide (p.1 ≤ high))).map
           Prod.snd) dx))
    ∧ ((freqs.zip psd).filter (fun p => decide (low ≤ p.1) && decide (p.1 ≤ high)) = [] →
        bandPower low high freqs psd dx = 0)
    ∧ (freqs.Nodup → (∀ f ∈ freqs, ¬(12 ≤ f ∧ f < 30)) →
        bandPower 12 30 freqs psd dx = 0) := by
  intro freqs psd dx low high
  refine ⟨rfl, ?_, ?_⟩
  · intro h
    simp [bandPower, h]
  · intro hnd hno
    have hall := mem_band_filter_eq_30 freqs psd hno
    have hnodup := band_filter_fst_nodup freqs psd hnd
      (fun p => decide ((12 : ℚ) ≤ p.1) && decide (p.1 ≤ (30 : ℚ)))
    cases hsel : (freqs.zip psd).filter
        (fun p => decide ((12 : ℚ) ≤ p.1) && decide (p.1 ≤ (30 : ℚ))) with
    | nil => simp [bandPower, hsel]
    | cons p rest =>
      cases rest with
      | nil =>
        have hbp : bandPower 12 30 freqs psd dx = simpsonQ ([p].map Prod.snd) dx := by
          simp [bandPower, hsel]
        rw [hbp]
        rfl
      | cons q rest2 =>
        exfalso
        have hp : p ∈ (freqs.zip psd).filter
            (fun p => decide ((12 : ℚ) ≤ p.1) && decide (p.1 ≤ (30 : ℚ))) := by
          rw [hsel]; exact List.mem_cons_self _ _
        have hq : q ∈ (freqs.zip psd).filter
            (fun p => decide ((12 : ℚ) ≤ p.1) && decide (p.1 ≤ (30 : ℚ))) := by
          rw [hsel]; exact List.mem_cons_of_mem _ (List.mem_cons_self _ _)
        have h30p := hall p hp
        have h30q := hall q hq
        rw [hsel] at hnodup
        simp only [List.map_cons, List.nodup_cons, List.mem_cons] at hnodup
        exact hnodup.1 (Or.inl (h30p.trans h30q.symm))

theorem c5_witness :
    ([(0 : ℚ), 10, 30].Nodup) ∧ (∀ f ∈ [(0 : ℚ), 10, 30], ¬(12 ≤ f ∧ f < 30)) ∧
    bandPower 12 30 [0, 10, 30] [5, 7, 9] 1 = 0 := by
  have hnd : ([(0 : ℚ), 10, 30]).Nodup := by norm_num [List.nodup_cons]
  have hno : ∀ f ∈ [(0 : ℚ), 10, 30], ¬(12 ≤ f ∧ f < 30) := by norm_num
  exact ⟨hnd, hno, (c5_band_power_closed_ranges [0, 10, 30] [5, 7, 9] 1 12 30).2.2 hnd hno⟩

/-- C6: every feature vector has exactly 25 fields without a stage tag and 26
with one, in the fixed order header (classId, className, minuteLabel,
dateLabel), optional stage tag, then the 21 numeric features, and the
arity matches the column schema of `save_features_to_csv`. -/
theorem c6_feature_vector_arity :
    ∀ (class_id class_name formatted_minute formatted_date stage_info : PyVal)
      (fs : SegmentFeatures),
    (buildFeatureVector class_id class_name formatted_minute formatted_date stage_info fs).length
        = (if stage_info.truthy then 26 else 25)
    ∧ (columnNames stage_info.truthy).length = (if stage_info.truthy then 26 else 25)
    ∧ (buildFeatureVector class_id class_name formatted_minute formatted_date stage_info fs).take 4
        = [class_id, class_name, formatted_minute, formatted_date]
    ∧ (buildFeatureVector class_id class_name formatted_minute formatted_date stage_info fs).drop 4
        = (if stage_info.truthy then [stage_info] else []) ++ numericFields fs
    ∧ (numericFields fs).length = 21 := by
  intro cid cname m d st fs
  cases hst : st.truthy <;>
    simp [buildFeatureVector, numericFields, columnNames, featureMetricNames, hst]

/-- C7: the scalar Lyapunov estimator's minimum temporal separation is the
fixed 1305 when the segment is longer than `2 * 1305` samples, otherwise
`max(1, floor(len / 2) - 1)`, and it is never below 1. -/
theorem c7_adaptive_lyapunov_separation : ∀ n : ℕ,
    (2 * 1305 < n → minTsep n = 1305)
    ∧ (n ≤ 2 * 1305 → minTsep n = max 1 ((n : ℤ) / 2 - 1))
    ∧ 1 ≤ minTsep n := by
  intro n
  refine ⟨?_, ?_, ?_⟩
  · intro h
    unfold minTsep
    rw [if_pos (by omega)]
  · intro h
    unfold minTsep
    rw [if_neg (by omega)]
  · unfold minTsep
    split
    · norm_num
    · exact le_max_left 1 _

theorem c7_witness : 2 * 1305 < 3000 ∧ minTsep 3000 = 1305 ∧ 1 ≤ minTsep 3000 :=
  ⟨by norm_num, (c7_adaptive_lyapunov_separation 3000).1 (by norm_num),
   (c7_adaptive_lyapunov_separation 3000).2.2⟩

/-- C8: aggregating the per-file tables of a class concatenates their rows in
file order then within-file order under the shared 25-column schema, so the
per-class row count is the sum of the per-file row counts; a class with no
files or no readable tables yields no per-class table and is reported at
`warning` severity, not as an error. -/
theorem c8_per_class_aggregation : ∀ (files : List (Option Table)),
    (files = [] → aggregateAndSaveClassFeatures files = AggOutcome.skipped warnLevel)
    ∧ (files.filterMap id = [] →
        aggregateAndSaveClassFeatures files = AggOutcome.skipped warnLevel)
    ∧ (∀ (t : Table) (ts : List Table), files.filterMap id = t :: ts →
        (∀ u ∈ t :: ts, u.cols = columnNames false ∧ ∀ r ∈ u.rows, r.length = 25) →
        aggregateAndSaveClassFeatures files =
          AggOutcome.saved ⟨columnNames false, ((t :: ts).map Table.rows).flatten⟩
        ∧ (((t :: ts).map Table.rows).flatten).length
            = ((t :: ts).map (fun u => u.rows.length)).sum) := by
  intro files
  refine ⟨?_, ?_, ?_⟩
  · intro h
    simp [aggregateAndSaveClassFeatures, h]
  · intro h
    by_cases hf : files = []
    · simp [aggregateAndSaveClassFeatures, hf]
    · simp [aggregateAndSaveClassFeatures, hf, h]
  · intro t ts hft hsch
    have hfne : files ≠ [] := by
      intro h0
      rw [h0] at hft
      simp at hft
    have hne : files.filterMap id ≠ [] := by
      rw [hft]
      simp
    constructor
    · have hud : aggregateAndSaveClassFeatures files =
          AggOutcome.saved (reindexColumns (concatTables (t :: ts)) (columnNames false)) := by
        unfold aggregateAndSaveClassFeatures
        rw [if_neg hfne, if_neg hne, hft]
      rw [hud]
      have hcols : t.cols = columnNames false := (hsch t (List.mem_cons_self t ts)).1
      have hconcat : concatTables (t :: ts) =
          ⟨columnNames false, ((t :: ts).map Table.rows).flatten⟩ := by
        show (⟨t.cols, ((t :: ts).map Table.rows).flatten⟩ : Table) = _
        rw [hcols]
      rw [hconcat]
      have hrows : ∀ r ∈ ((t :: ts).map Table.rows).flatten,
          r.length = (columnNames false).length := by
        intro r hr
        rw [List.mem_flatten] at hr
        obtain ⟨l, hl, hrl⟩ := hr
        rw [List.mem_map] at hl
        obtain ⟨u, hu, rfl⟩ := hl
        exact ((hsch u hu).2 r hrl).trans columnNamesFalseLength.symm
      rw [reindexColumns_self ⟨columnNames false, ((t :: ts).map Table.rows).flatten⟩
        columnNamesFalseNodup hrows]
    · rw [List.length_flatten, List.map_map]
      rfl

theorem c8_witness :
    (([some sampleTable] : List (Option Table)).filterMap id = [sampleTable]) ∧
    (∀ u ∈ [sampleTable], u.cols = columnNames false ∧ ∀ r ∈ u.rows, r.length = 25) ∧
    aggregateAndSaveClassFeatures [some sampleTable] =
      AggOutcome.saved ⟨columnNames false, ([sampleTable].map Table.rows).flatten⟩ := by
  have h1 : (([some sampleTable] : List (Option Table)).filterMap id = [sampleTable]) := by
    simp
  have h2 : ∀ u ∈ [sampleTable], u.cols = columnNames false ∧ ∀ r ∈ u.rows, r.length = 25 := by
    decide
  exact ⟨h1, h2, ((c8_per_class_aggregation [some sampleTable]).2.2 sampleTable [] h1 h2).1⟩

/-- C9: the clamping branch of the segmentation loop is unreachable — for
every input with `pointsPerSegment >= 1`, all `floor(total / pps)` segments
are emitted (none discarded), each has length exactly `pps`, and each end
index stays within `total`. -/
theorem c9_clamp_unreachable : ∀ (total pps : ℕ), 1 ≤ pps →
    (extractSegments total pps).length = total / pps
    ∧ ∀ seg ∈ extractSegments total pps,
        seg.2 - seg.1 = (pps : ℤ) ∧ seg.1 < seg.2 ∧ seg.2 ≤ (total : ℤ) := by
  intro total pps h
  rw [extractSegments_closed total pps h]
  refine ⟨by simp, ?_⟩
  intro seg hseg
  simp only [List.mem_map, List.mem_range] at hseg
  obtain ⟨i, hi, rfl⟩ := hseg
  have hovlt : ((pps / 3 : ℕ) : ℤ) < (pps : ℤ) := by
    exact_mod_cast Nat.div_lt_self (by omega) (by norm_num)
  have hov0 : (0 : ℤ) ≤ ((pps / 3 : ℕ) : ℤ) := Int.natCast_nonneg _
  have hd0 : (0 : ℤ) ≤ (pps : ℤ) - ((pps / 3 : ℕ) : ℤ) := by linarith
  have hdp : (pps : ℤ) - ((pps / 3 : ℕ) : ℤ) ≤ (pps : ℤ) := by linarith
  have hppos : (0 : ℤ) < (pps : ℤ) := by exact_mod_cast (by omega : 0 < pps)
  have hi' : (i : ℤ) + 1 ≤ ((total / pps : ℕ) : ℤ) := by exact_mod_cast hi
  have hi0 : (0 : ℤ) ≤ (i : ℤ) := Int.natCast_nonneg i
  have hmul : ((total / pps : ℕ) : ℤ) * (pps : ℤ) ≤ (total : ℤ) := by
    exact_mod_cast Nat.div_mul_le_self total pps
  have h1 : (i : ℤ) * ((pps : ℤ) - ((pps / 3 : ℕ) : ℤ)) ≤
      (((total / pps : ℕ) : ℤ) - 1) * ((pps : ℤ) - ((pps / 3 : ℕ) : ℤ)) :=
    mul_le_mul_of_nonneg_right (by linarith) hd0
  have h2 : (((total / pps : ℕ) : ℤ) - 1) * ((pps : ℤ) - ((pps / 3 : ℕ) : ℤ)) ≤
      (((total / pps : ℕ) : ℤ) - 1) * (pps : ℤ) :=
    mul_le_mul_of_nonneg_left hdp (by linarith)
  have h3 : (((total / pps : ℕ) : ℤ) - 1) * (pps : ℤ) + (pps : ℤ) =
      ((total / pps : ℕ) : ℤ) * (pps : ℤ) := by ring
  refine ⟨by ring, by dsimp only; linarith, by dsimp only; linarith⟩

theorem c9_witness :
    1 ≤ 10800 ∧ (extractSegments 25000 10800).length = 25000 / 10800 := by
  exact ⟨by norm_num, (c9_clamp_unreachable 25000 10800 (by norm_num)).1⟩

/-- C10: a supplied-but-falsy stage tag is treated as absent: the stage field
is appended only when `stage_info` is truthy, so with a falsy tag every row
has 25 fields, and saving such rows with the 26-name stage schema raises the
pandas column-mismatch error instead of producing a table. -/
theorem c10_falsy_stage_tag :
    ∀ (class_id class_name formatted_minute formatted_date stage_info : PyVal)
      (fs : SegmentFeatures),
    stage_info.truthy = false →
    buildFeatureVector class_id class_name formatted_minute formatted_date stage_info fs =
      [class_id, class_name, formatted_minute, formatted_date] ++ numericFields fs
    ∧ (buildFeatureVector class_id class_name formatted_minute formatted_date stage_info fs).length
        = 25
    ∧ saveFeaturesToCsv
        [buildFeatureVector class_id class_name formatted_minute formatted_date stage_info fs]
        true =
      Except.error columnsMismatchMsg := by
  intro cid cname m d st fs h
  have hv : buildFeatureVector cid cname m d st fs = [cid, cname, m, d] ++ numericFields fs := by
    simp [buildFeatureVector, h]
  have hlen : (buildFeatureVector cid cname m d st fs).length = 25 := by
    rw [hv]
    simp [numericFields]
  refine ⟨hv, hlen, ?_⟩
  simp [saveFeaturesToCsv, pdDataFrame, hlen, columnNames, featureMetricNames]

theorem c10_witness :
    PyVal.truthy (PyVal.int 0) = false ∧
    buildFeatureVector (PyVal.int 7) PyVal.none (PyVal.int 0) PyVal.none (PyVal.int 0)
        zeroSegmentFeatures =
      [PyVal.int 7, PyVal.none, PyVal.int 0, PyVal.none] ++ numericFields zeroSegmentFeatures ∧
    saveFeaturesToCsv
        [buildFeatureVector (PyVal.int 7) PyVal.none (PyVal.int 0) PyVal.none (PyVal.int 0)
          zeroSegmentFeatures]
        true =
      Except.error columnsMismatchMsg := by
  have h := c10_falsy_stage_tag (PyVal.int 7) PyVal.none (PyVal.int 0) PyVal.none (PyVal.int 0)
    zeroSegmentFeatures (by decide)
  exact ⟨by decide, h.1, h.2.2⟩
